import Mathlib

/-!
Shallow embedding of the reward/curation computation engine of
`bhive/comment.py` (class `Comment`).  Python float arithmetic is modelled
over `ℚ`; dictionaries are modelled as insertion-ordered association lists
with overwrite-on-existing-key semantics; Python exceptions are modelled
with `Except Err`.  Wall-clock timestamps are rationals counting seconds,
and the implicit "now" of `time_elapsed` is passed explicitly.
-/

namespace BHive

/-- Python exceptions that the modelled code paths can raise. -/
inductive Err where
  /-- Python `ZeroDivisionError` (float division by zero). -/
  | divisionByZero : Err
  /-- Python `KeyError` (missing dictionary key). -/
  | keyError : Err
  /-- Python `ValueError` (e.g. `math.sqrt` domain error). -/
  | valueError : Err
  /-- A dedicated invalid-input error; never raised by this code, present
  so that statements can distinguish it from `divisionByZero`. -/
  | invalidInput : Err
deriving DecidableEq, Repr

/-- One entry of `active_votes`: the fields the reward engine reads, plus
the two derived fields that `get_vote_with_curation` writes in place
(absent on a freshly fetched record, hence `Option`). -/
structure Vote where
  voter : String
  weight : ℤ
  percent : ℚ
  curation_reward : Option ℚ
  roi : Option ℚ
deriving DecidableEq, Repr

/-- One entry of `beneficiaries`. -/
structure Beneficiary where
  account : String
  weight : ℤ
deriving DecidableEq, Repr

/-- The fields of a `Comment` record that the reward engine reads.
`created` is a timestamp in seconds; the three payout values are HBD
magnitudes; `total_vote_weight` is `none` when the chain snapshot omits the
field (the code then recomputes it from the individual votes). -/
structure Comment where
  created : ℚ
  total_payout_value : ℚ
  curator_payout_value : ℚ
  pending_payout_value : ℚ
  percent_hive_dollars : ℚ
  allow_curation_rewards : Bool
  beneficiaries : List Beneficiary
  active_votes : List Vote
  total_vote_weight : Option ℤ
deriving DecidableEq, Repr

/-- Modelled from the spec: the three reverse-auction-window protocol
constants `HIVE_REVERSE_AUCTION_WINDOW_SECONDS_HF6/HF20/HF21` live in
`bhive.constants`, which is not part of the sources here.  The theorems
therefore quantify over the three window values (requiring only
positivity), mirroring the spec's "table lookup by version" rule;
`windowSeconds` is the selection logic of lines 329-334 / 372-377. -/
def windowSeconds (W6 W20 W21 : ℚ) (hardfork : ℕ) : ℚ :=
  if 21 ≤ hardfork then W21
  else if 20 ≤ hardfork then W20
  else W6

/-- `Comment.time_elapsed().total_seconds()` with the wall-clock read
passed explicitly. -/
def time_elapsed (c : Comment) (now : ℚ) : ℚ :=
  now - c.created

/-- `Comment.is_pending`: age below 7 days and zero finalized payout. -/
def is_pending (c : Comment) (now : ℚ) : Bool :=
  decide (time_elapsed c now / 60 / 60 / 24 < 7) && decide (c.total_payout_value = 0)

/-- `Comment.reward`: estimated total HBD reward, the sum of the finalized,
curator and pending payout values. -/
def reward (c : Comment) : ℚ :=
  c.total_payout_value + c.curator_payout_value + c.pending_payout_value

/-- `Comment.get_curation_penalty` with the vote's elapsed time (vote time
minus `created`, already in seconds) passed explicitly: the ratio
elapsed/window is clamped from above at 1 and the penalty is one minus the
clamped ratio. -/
def get_curation_penalty (W6 W20 W21 : ℚ) (hardfork : ℕ) (elapsed_seconds : ℚ) : ℚ :=
  1 - (if 1 < elapsed_seconds / windowSeconds W6 W20 W21 hardfork then 1
       else elapsed_seconds / windowSeconds W6 W20 W21 hardfork)

/-- `Comment.get_beneficiaries_pct`: accumulates the beneficiary weights
and divides by 100. -/
def get_beneficiaries_pct (c : Comment) : ℚ :=
  (c.beneficiaries.foldl (fun acc b => acc + b.weight) 0 : ℤ) / 100

/-- The spec's `beneficiary_fraction()` as worded there, for comparison
with `get_beneficiaries_pct`: "sum of `beneficiaries[].weight` divided by
10000". -/
def beneficiary_fraction_spec (c : Comment) : ℚ :=
  ((c.beneficiaries.map Beneficiary.weight).sum : ℤ) / 10000

/-- A Python `dict` from voter names to reward magnitudes, as an
insertion-ordered association list. -/
abbrev Dict := List (String × ℚ)

/-- Python `d[k] = v`: overwrite in place when the key exists, otherwise
append at the end. -/
def dictInsert (d : Dict) (k : String) (v : ℚ) : Dict :=
  if d.any (fun p => p.1 = k) then
    d.map (fun p => if p.1 = k then (k, v) else p)
  else
    d ++ [(k, v)]

/-- Python `d[k]` as an option (reading a missing key raises `KeyError`). -/
def dictGet (d : Dict) (k : String) : Option ℚ :=
  (d.find? (fun p => p.1 = k)).map Prod.snd

/-- The resolution of `total_vote_weight` at lines 526-531: the record's
field when present, else the sum of the individual vote weights. -/
def resolved_total_vote_weight (c : Comment) : ℤ :=
  match c.total_vote_weight with
  | some w => w
  | none => c.active_votes.foldl (fun acc v => acc + v.weight) 0

/-- The resolution of the `pending_payout_value` argument of
`get_curation_rewards` (lines 537-544): when the caller passes `none` the
record's own field is used.  (The duck-typed float/str/Amount variants all
end as the same magnitude.) -/
def resolved_pending_payout (c : Comment) (pending_payout_value : Option ℚ) : ℚ :=
  match pending_payout_value with
  | some v => v
  | none => c.pending_payout_value

/-- Converting an HBD amount into HIVE via `median_price.as_base(hive)`:
the median price `r` is the HBD-per-HIVE rate, so the conversion divides
by `r`. -/
def as_base_hive (r : ℚ) (x : ℚ) : ℚ := x / r

/-- Converting a HIVE amount into HBD via `median_price * amount`:
multiplication by the HBD-per-HIVE rate. -/
def price_mul (r : ℚ) (x : ℚ) : ℚ := x * r

/-- `max_rewards` of `get_curation_rewards` (lines 533-550): zero unless
curation rewards are allowed and the payout is pending; otherwise a
quarter of the pending payout value, converted into HIVE via the median
price unless `pending_payout_HBD` is set or no median history exists. -/
def max_rewards (c : Comment) (now : ℚ) (median : Option ℚ)
    (pending_payout_HBD : Bool) (pending_payout_value : Option ℚ) : ℚ :=
  if ¬c.allow_curation_rewards ∨ ¬is_pending c now then 0
  else
    let ppv := resolved_pending_payout c pending_payout_value
    match median with
    | none => ppv * (1/4)
    | some r => if pending_payout_HBD then ppv * (1/4) else as_base_hive r (ppv * (1/4))

/-- The `pending_rewards` flag returned by `get_curation_rewards`: set to
`True` only on the branch that computes a non-trivial `max_rewards`. -/
def pending_rewards_flag (c : Comment) (now : ℚ) : Bool :=
  c.allow_curation_rewards && is_pending c now

/-- The `claim` of one vote (lines 555-558): proportional share of
`max_rewards` by vote weight when the total vote weight is positive, else
zero. -/
def claim_of (mx : ℚ) (tvw : ℤ) (v : Vote) : ℚ :=
  if 0 < tvw then mx * (v.weight : ℚ) / (tvw : ℚ) else 0

/-- The value recorded for a vote in the `active_votes` result dict (lines
561-564): the claim when positive, zero otherwise. -/
def recorded_claim (mx : ℚ) (tvw : ℤ) (v : Vote) : ℚ :=
  if 0 < claim_of mx tvw v then claim_of mx tvw v else 0

/-- The amount by which one vote decrements `unclaimed_rewards` (lines
559-560): its claim, when the claim is positive and the record is
pending. -/
def dec_claim (pending : Bool) (mx : ℚ) (tvw : ℤ) (v : Vote) : ℚ :=
  if 0 < claim_of mx tvw v ∧ pending then claim_of mx tvw v else 0

/-- The body of the per-vote loop of `get_curation_rewards` (lines
554-564): compute the claim, decrement `unclaimed` for positive claims of
a pending record, and record the claim (or zero) under the voter's key. -/
def curation_step (pending : Bool) (mx : ℚ) (tvw : ℤ)
    (st : ℚ × Dict) (v : Vote) : ℚ × Dict :=
  (if 0 < claim_of mx tvw v ∧ pending then st.1 - claim_of mx tvw v else st.1,
   if 0 < claim_of mx tvw v then dictInsert st.2 v.voter (claim_of mx tvw v)
   else dictInsert st.2 v.voter 0)

/-- The result record of `get_curation_rewards`. -/
structure CurationRewards where
  pending_rewards : Bool
  unclaimed_rewards : ℚ
  active_votes : Dict
deriving DecidableEq, Repr

/-- `Comment.get_curation_rewards`. -/
def get_curation_rewards (c : Comment) (now : ℚ) (median : Option ℚ)
    (pending_payout_HBD : Bool) (pending_payout_value : Option ℚ) : CurationRewards :=
  let tvw := resolved_total_vote_weight c
  let mx := max_rewards c now median pending_payout_HBD pending_payout_value
  let pending := pending_rewards_flag c now
  let st := c.active_votes.foldl (curation_step pending mx tvw) (mx, [])
  ⟨pending, st.1, st.2⟩

/-- The result dictionary of `get_author_rewards`; each field is `none`
when the corresponding key is absent from the returned Python dict. -/
structure AuthorRewards where
  pending_rewards : Bool
  payout_HP : Option ℚ
  payout_HBD : Option ℚ
  total_payout_HBD : Option ℚ
  total_payout : Option ℚ
deriving DecidableEq, Repr

/-- `Comment.get_author_rewards` (lines 450-487).  The branch structure of
the source: a finalized record short-circuits; a pending record splits the
reward 25/75, adds back (post-HF20, with a median price) the unclaimed
curation rewards, deducts beneficiary tokens, and splits liquid/vesting by
`percent_hive_dollars` — returning only the aggregate `total_payout` key
when no median history is available. -/
def get_author_rewards (c : Comment) (now : ℚ) (median : Option ℚ)
    (hardfork : ℕ) : AuthorRewards :=
  if ¬is_pending c now then
    ⟨false, some 0, some 0, some c.total_payout_value, none⟩
  else
    let beneficiaries_pct := get_beneficiaries_pct c
    let curation_tokens := reward c * (1/4)
    let author_tokens := reward c - curation_tokens
    let curation_rewards := get_curation_rewards c now median false none
    let author_tokens :=
      match median with
      | some r =>
        if 20 ≤ hardfork then
          author_tokens + price_mul r curation_rewards.unclaimed_rewards
        else author_tokens
      | none => author_tokens
    let author_tokens := author_tokens - author_tokens * beneficiaries_pct / 100
    match median with
    | some r =>
      let hbd_hive := author_tokens * c.percent_hive_dollars / 20000
      let vesting_hive := as_base_hive r (author_tokens - hbd_hive)
      ⟨true, some vesting_hive, some hbd_hive, some author_tokens, none⟩
    | none => ⟨true, none, none, none, some author_tokens⟩

/-- The result record of `get_rewards`. -/
structure Rewards where
  total_payout : ℚ
  author_payout : ℚ
  curator_payout : ℚ
deriving DecidableEq, Repr

/-- `Comment.get_rewards` (lines 424-448).  The pending branch reads the
key `total_payout_HBD` from the author-rewards dict; when that key is
absent this is a Python `KeyError`. -/
def get_rewards (c : Comment) (now : ℚ) (median : Option ℚ)
    (hardfork : ℕ) : Except Err Rewards :=
  if is_pending c now then
    let total_payout := c.pending_payout_value
    match (get_author_rewards c now median hardfork).total_payout_HBD with
    | none => .error .keyError
    | some author_payout =>
      .ok ⟨total_payout, author_payout, total_payout - author_payout⟩
  else
    let author_payout := c.total_payout_value
    let curator_payout := c.curator_payout_value
    .ok ⟨author_payout + curator_payout, author_payout, curator_payout⟩

/-- `Comment.curation_penalty_compensation_HBD` (lines 324-335):
`reward * window_seconds / (elapsed_minutes)^2`.  Modelled from the spec:
the `Amount` fixed-point class (not among the sources) performs the final
scalar division; per spec sections 4.1 and 4.4 a zero scalar raises a
`DivisionByZero` error rather than yielding infinity, which matches Python
float division raising `ZeroDivisionError`. -/
def curation_penalty_compensation_HBD (W6 W20 W21 : ℚ) (hardfork : ℕ)
    (c : Comment) (now : ℚ) : Except Err ℚ :=
  let w := windowSeconds W6 W20 W21 hardfork
  let d := (time_elapsed c now / 60) ^ 2
  if d = 0 then .error .divisionByZero
  else .ok (reward c * w / d)

/-- `Comment.estimate_curation_HBD` (lines 337-351).  `math.sqrt` is an
irrational-valued external function, passed in as a parameter `sqrtFn`
(its negative-argument `ValueError` is modelled explicitly); the two float
divisions raise `ZeroDivisionError` on a zero denominator, first in
`k = vote_value / (vote_value + reward)` and then in
`K = (1 - sqrt(1-k)) / 4 / k`. -/
def estimate_curation_HBD (sqrtFn : ℚ → ℚ) (W6 W20 W21 : ℚ) (hardfork : ℕ)
    (c : Comment) (now : ℚ) (vote_value_HBD : ℚ)
    (estimated_value_HBD : Option ℚ) : Except Err ℚ :=
  let estimated := match estimated_value_HBD with
    | some v => v
    | none => reward c
  let t := 1 - get_curation_penalty W6 W20 W21 hardfork (time_elapsed c now)
  if vote_value_HBD + reward c = 0 then .error .divisionByZero
  else
    let k := vote_value_HBD / (vote_value_HBD + reward c)
    if 1 - k < 0 then .error .valueError
    else if k = 0 then .error .divisionByZero
    else
      let bigK := (1 - sqrtFn (1 - k)) / 4 / k
      if estimated < 0 then .error .valueError
      else .ok (bigK * vote_value_HBD * t * sqrtFn estimated)

/-- Replace the LAST vote whose voter matches `name` (the loop at lines
397-399 keeps overwriting `specific_vote`, so the object mutated in place
is the last match). -/
def replaceLastMatch : List Vote → String → Vote → List Vote
  | [], _, _ => []
  | v :: vs, name, v' =>
    if vs.any (fun u => u.voter = name) then v :: replaceLastMatch vs name v'
    else if v.voter = name then v' :: vs
    else v :: replaceLastMatch vs name v'

/-- `Comment.get_vote_with_curation` (lines 382-413), with the in-place
dictionary writes made explicit: the call returns both its result (the
located vote, possibly annotated) and the state of the record afterwards.
The external voting-power collaborator is the scalar `voting_value`
(`voter.get_voting_value_HBD(...)`); a zero value makes the ROI float
division raise. -/
def get_vote_with_curation (c : Comment) (now : ℚ) (median : Option ℚ)
    (voter : String) (raw_data : Bool) (pending_payout_value : Option ℚ)
    (voting_value : ℚ) : Except Err (Option Vote × Comment) :=
  let specific_vote := (c.active_votes.filter (fun v => v.voter = voter)).getLast?
  match specific_vote with
  | none => .ok (none, c)
  | some v =>
    if raw_data ∨ ¬is_pending c now then .ok (some v, c)
    else
      let curation_reward := get_curation_rewards c now median true pending_payout_value
      match dictGet curation_reward.active_votes voter with
      | none => .error .keyError
      | some claim =>
        if voting_value = 0 then .error .divisionByZero
        else
          let v' : Vote := ⟨v.voter, v.weight, v.percent,
            some claim, some (claim / voting_value * 100)⟩
          .ok (some v', ⟨c.created, c.total_payout_value, c.curator_payout_value,
            c.pending_payout_value, c.percent_hive_dollars,
            c.allow_curation_rewards, c.beneficiaries,
            replaceLastMatch c.active_votes voter v', c.total_vote_weight⟩)

/-! ### Helper lemmas -/

/-- Accumulating beneficiary weights with `foldl` totals to the list sum. -/
theorem foldl_weight_eq_sum (l : List Beneficiary) (a : ℤ) :
    l.foldl (fun acc b => acc + b.weight) a = a + (l.map Beneficiary.weight).sum := by
  induction l generalizing a with
  | nil => simp
  | cons b bs ih => simp [List.foldl_cons, ih (a + b.weight), add_assoc]

/-- Inserting a key that is not yet present appends at the end. -/
theorem dictInsert_of_not_mem (d : Dict) (k : String) (v : ℚ)
    (h : ∀ p ∈ d, p.1 ≠ k) : dictInsert d k v = d ++ [(k, v)] := by
  unfold dictInsert
  rw [if_neg]
  simp only [List.any_eq_true, decide_eq_true_eq, not_exists]
  intro p
  exact fun hp => absurd hp.2 (h p hp.1)

/-- Inserting the value 0 preserves the all-values-zero invariant. -/
theorem dictInsert_zero_values (d : Dict) (k : String)
    (h : ∀ p ∈ d, p.2 = 0) : ∀ p ∈ dictInsert d k 0, p.2 = 0 := by
  unfold dictInsert
  intro p hp
  split at hp
  · rcases List.mem_map.mp hp with ⟨q, hq, hpq⟩
    by_cases hqk : q.1 = k
    · rw [if_pos hqk] at hpq; rw [← hpq]
    · rw [if_neg hqk] at hpq; rw [← hpq]; exact h q hq
  · rcases List.mem_append.mp hp with hq | hq
    · exact h p hq
    · simp only [List.mem_singleton] at hq; rw [hq]

/-- One loop iteration, phrased through the named per-vote quantities. -/
theorem curation_step_eq (pending : Bool) (mx : ℚ) (tvw : ℤ) (st : ℚ × Dict) (v : Vote) :
    curation_step pending mx tvw st v =
      (st.1 - dec_claim pending mx tvw v,
       dictInsert st.2 v.voter (recorded_claim mx tvw v)) := by
  unfold curation_step dec_claim recorded_claim
  by_cases h : 0 < claim_of mx tvw v
  · by_cases hp : pending = true <;> simp [h, hp]
  · simp [h]

/-- The vote loop of `get_curation_rewards`, fully characterized when all
voter names (existing dictionary keys included) are distinct: `unclaimed`
drops by the sum of the decrements and the dictionary extends, in vote
order, by one recorded claim per vote. -/
theorem foldl_curation_step_eq (pending : Bool) (mx : ℚ) (tvw : ℤ)
    (votes : List Vote) (u : ℚ) (d : Dict)
    (h : ((d.map Prod.fst) ++ votes.map Vote.voter).Nodup) :
    votes.foldl (curation_step pending mx tvw) (u, d) =
      (u - (votes.map (dec_claim pending mx tvw)).sum,
       d ++ votes.map (fun v => (v.voter, recorded_claim mx tvw v))) := by
  induction votes generalizing u d with
  | nil => simp
  | cons v vs ih =>
    have hfresh : ∀ p ∈ d, p.1 ≠ v.voter := by
      rw [List.nodup_append] at h
      intro p hp he
      exact h.2.2 (List.mem_map_of_mem Prod.fst hp)
        (by simp only [List.map_cons, List.mem_cons]; exact Or.inl he)
    rw [List.foldl_cons, curation_step_eq, dictInsert_of_not_mem _ _ _ hfresh]
    have hnd : (((d ++ [(v.voter, recorded_claim mx tvw v)]).map Prod.fst) ++
        vs.map Vote.voter).Nodup := by
      simpa [List.append_assoc] using h
    rw [ih (u - dec_claim pending mx tvw v) _ hnd]
    simp [sub_sub, List.append_assoc]

/-- A record that is not in the pending-curation state has `max_rewards`
zero. -/
theorem max_rewards_eq_zero_of_flag_false (c : Comment) (now : ℚ) (median : Option ℚ)
    (pending_payout_HBD : Bool) (ppv : Option ℚ)
    (h : pending_rewards_flag c now = false) :
    max_rewards c now median pending_payout_HBD ppv = 0 := by
  unfold pending_rewards_flag at h
  unfold max_rewards
  rw [if_pos]
  rcases Bool.and_eq_false_iff.mp h with h' | h' <;> simp [h']

/-- A zero `max_rewards` makes every per-vote claim zero. -/
theorem claim_of_zero_max (tvw : ℤ) (v : Vote) : claim_of 0 tvw v = 0 := by
  unfold claim_of
  split <;> simp

/-- With a zero total vote weight every per-vote claim is zero. -/
theorem claim_of_zero_tvw (mx : ℚ) (v : Vote) : claim_of mx 0 v = 0 := by
  unfold claim_of
  norm_num

/-- For a pending record the decrement of a vote equals its recorded
claim. -/
theorem dec_claim_true (mx : ℚ) (tvw : ℤ) (v : Vote) :
    dec_claim true mx tvw v = recorded_claim mx tvw v := by
  unfold dec_claim recorded_claim
  simp

/-- A zero `max_rewards` records zero for every vote. -/
theorem recorded_claim_zero_max (tvw : ℤ) (v : Vote) : recorded_claim 0 tvw v = 0 := by
  unfold recorded_claim
  simp [claim_of_zero_max]

/-- A zero `max_rewards` never decrements `unclaimed`. -/
theorem dec_claim_zero_max (pending : Bool) (tvw : ℤ) (v : Vote) :
    dec_claim pending 0 tvw v = 0 := by
  unfold dec_claim
  simp [claim_of_zero_max]

/-- A zero total vote weight records zero for every vote. -/
theorem recorded_claim_zero_tvw (mx : ℚ) (v : Vote) : recorded_claim mx 0 v = 0 := by
  unfold recorded_claim
  simp [claim_of_zero_tvw]

/-- A zero total vote weight never decrements `unclaimed`. -/
theorem dec_claim_zero_tvw (pending : Bool) (mx : ℚ) (v : Vote) :
    dec_claim pending mx 0 v = 0 := by
  unfold dec_claim
  simp [claim_of_zero_tvw]

/-- With `max_rewards = 0` the vote loop leaves `unclaimed` untouched and
only ever stores zeros (no distinctness of voters needed). -/
theorem foldl_curation_step_zero_max (pending : Bool) (tvw : ℤ)
    (votes : List Vote) (u : ℚ) (d : Dict) (hd : ∀ p ∈ d, p.2 = 0) :
    (votes.foldl (curation_step pending 0 tvw) (u, d)).1 = u ∧
    ∀ p ∈ (votes.foldl (curation_step pending 0 tvw) (u, d)).2, p.2 = 0 := by
  induction votes generalizing u d with
  | nil => exact ⟨rfl, hd⟩
  | cons v vs ih =>
    rw [List.foldl_cons, curation_step_eq, dec_claim_zero_max, recorded_claim_zero_max,
      sub_zero]
    exact ih u _ (dictInsert_zero_values d v.voter hd)

end BHive

namespace BHive

/-! ### Claim theorems -/

/-- C1: for every hardfork window selection with a positive window, the
curation penalty equals exactly `1 - elapsed/window` on `[0, window]`, is
monotonically non-increasing there, is `1` at `elapsed = 0`, is `0` at
`elapsed = window`, and lies in `[0, 1]` for every `elapsed ≥ 0`. -/
theorem c1_curation_penalty_exact_monotone_bounded (W6 W20 W21 : ℚ) (hardfork : ℕ)
    (hw : 0 < windowSeconds W6 W20 W21 hardfork) :
    (∀ e, 0 ≤ e → e ≤ windowSeconds W6 W20 W21 hardfork →
      get_curation_penalty W6 W20 W21 hardfork e =
        1 - e / windowSeconds W6 W20 W21 hardfork) ∧
    (∀ e₁ e₂, 0 ≤ e₁ → e₁ ≤ e₂ → e₂ ≤ windowSeconds W6 W20 W21 hardfork →
      get_curation_penalty W6 W20 W21 hardfork e₂ ≤
        get_curation_penalty W6 W20 W21 hardfork e₁) ∧
    get_curation_penalty W6 W20 W21 hardfork 0 = 1 ∧
    get_curation_penalty W6 W20 W21 hardfork (windowSeconds W6 W20 W21 hardfork) = 0 ∧
    (∀ e, 0 ≤ e → 0 ≤ get_curation_penalty W6 W20 W21 hardfork e ∧
      get_curation_penalty W6 W20 W21 hardfork e ≤ 1) := by
  set w := windowSeconds W6 W20 W21 hardfork with hwdef
  have hexact : ∀ e, 0 ≤ e → e ≤ w →
      get_curation_penalty W6 W20 W21 hardfork e = 1 - e / w := by
    intro e _ hle
    have hr : e / w ≤ 1 := (div_le_one hw).mpr hle
    unfold get_curation_penalty
    rw [← hwdef, if_neg (not_lt.mpr hr)]
  refine ⟨hexact, ?_, ?_, ?_, ?_⟩
  · intro e₁ e₂ h0 h12 h2w
    rw [hexact e₁ h0 (le_trans h12 h2w), hexact e₂ (le_trans h0 h12) h2w]
    have hdiv : e₁ / w ≤ e₂ / w := by gcongr
    linarith
  · have := hexact 0 le_rfl hw.le
    simpa using this
  · have := hexact w hw.le le_rfl
    rw [this, div_self (ne_of_gt hw)]
    ring
  · intro e he
    have hr0 : 0 ≤ e / w := div_nonneg he hw.le
    unfold get_curation_penalty
    rw [← hwdef]
    by_cases h1 : 1 < e / w
    · rw [if_pos h1]; constructor <;> norm_num
    · rw [if_neg h1]
      push_neg at h1
      constructor <;> linarith

/-- Witness for C1 at concrete windows `(1800, 900, 900)`, hardfork 21,
elapsed 600 seconds: the penalty is exactly `1 - 600/900 = 1/3`. -/
theorem c1_witness : get_curation_penalty 1800 900 900 21 600 = 1 - (600 : ℚ) / 900 :=
  (c1_curation_penalty_exact_monotone_bounded 1800 900 900 21 (by norm_num [windowSeconds])).1
    600 (by norm_num) (by norm_num [windowSeconds])

/-- C10: with a positive window, a vote time strictly before the record's
creation (negative elapsed seconds) yields a penalty strictly greater than
1 — the ratio is clamped only from above. -/
theorem c10_negative_elapsed_penalty_above_one (W6 W20 W21 : ℚ) (hardfork : ℕ)
    (e : ℚ) (hw : 0 < windowSeconds W6 W20 W21 hardfork) (he : e < 0) :
    1 < get_curation_penalty W6 W20 W21 hardfork e := by
  have hr : e / windowSeconds W6 W20 W21 hardfork < 0 := div_neg_of_neg_of_pos he hw
  unfold get_curation_penalty
  rw [if_neg (not_lt.mpr (le_of_lt (lt_trans hr one_pos)))]
  linarith

/-- Witness for C10: elapsed `-100` seconds at windows `(1800, 900, 900)`,
hardfork 21, gives a penalty above 1. -/
theorem c10_witness : 1 < get_curation_penalty 1800 900 900 21 (-100) :=
  c10_negative_elapsed_penalty_above_one 1800 900 900 21 (-100)
    (by norm_num [windowSeconds]) (by norm_num)

/-- C8 (amended): `get_beneficiaries_pct` returns the sum of the
beneficiary weights divided by 100 (a percentage), not by 10000. -/
theorem c8_beneficiaries_pct_sum_div_100 (c : Comment) :
    get_beneficiaries_pct c = ((c.beneficiaries.map Beneficiary.weight).sum : ℤ) / 100 := by
  unfold get_beneficiaries_pct
  rw [foldl_weight_eq_sum, zero_add]

/-- A record with two beneficiaries of 5000 and 2500 basis points. -/
def cC8 : Comment :=
  ⟨0, 0, 0, 0, 0, true, [⟨"x", 5000⟩, ⟨"y", 2500⟩], [], none⟩

/-- Counterexample for C8 as stated: on `cC8` the accessor returns
`7500 / 100 = 75`, not the spec's `7500 / 10000 = 3/4`. -/
theorem c8_counterexample :
    get_beneficiaries_pct cC8 ≠ beneficiary_fraction_spec cC8 := by
  norm_num [get_beneficiaries_pct, beneficiary_fraction_spec, cC8]

/-- C5: `curation_penalty_compensation_HBD` returns exactly
`reward * window / (elapsed/60)^2` for positive elapsed time and fails
with a division-by-zero error at zero elapsed time. -/
theorem c5_compensation_formula_and_zero_error (W6 W20 W21 : ℚ) (hardfork : ℕ)
    (c : Comment) (now : ℚ) :
    (0 < time_elapsed c now →
      curation_penalty_compensation_HBD W6 W20 W21 hardfork c now =
        .ok (reward c * windowSeconds W6 W20 W21 hardfork /
          (time_elapsed c now / 60) ^ 2)) ∧
    (time_elapsed c now = 0 →
      curation_penalty_compensation_HBD W6 W20 W21 hardfork c now =
        .error .divisionByZero) := by
  constructor
  · intro he
    have hd : (0 : ℚ) < (time_elapsed c now / 60) ^ 2 :=
      pow_pos (div_pos he (by norm_num)) 2
    unfold curation_penalty_compensation_HBD
    rw [if_neg (ne_of_gt hd)]
  · intro he
    unfold curation_penalty_compensation_HBD
    rw [he]
    norm_num

/-- A pending record one minute old with a pending payout of 1 HBD. -/
def cC5 : Comment := ⟨0, 0, 0, 1, 0, true, [], [], none⟩

/-- Witness for C5: on `cC5` at `now = 60` (elapsed one minute) the
compensation is `1 * 900 / 1^2 = 900`. -/
theorem c5_witness :
    curation_penalty_compensation_HBD 1800 900 900 21 cC5 60 = .ok 900 := by
  rw [(c5_compensation_formula_and_zero_error 1800 900 900 21 cC5 60).1
    (by norm_num [time_elapsed, cC5])]
  norm_num [reward, windowSeconds, time_elapsed, cC5]

/-- C2: on a record whose voters are pairwise distinct (the per-voter
mapping's invariant), `get_curation_rewards` is conserving: the result
dictionary lists, in vote order, exactly the per-vote recorded claim (the
proportional share `max_rewards * weight / total_vote_weight` when
positive, zero otherwise — never a negative value), `unclaimed_rewards`
plus the sum of all per-voter claims equals `max_rewards` exactly, and
with a zero total vote weight every entry is zero and `unclaimed_rewards`
equals `max_rewards`. -/
theorem c2_curation_rewards_conservation (c : Comment) (now : ℚ) (median : Option ℚ)
    (pending_payout_HBD : Bool) (ppv : Option ℚ)
    (hnd : (c.active_votes.map Vote.voter).Nodup) :
    (get_curation_rewards c now median pending_payout_HBD ppv).active_votes =
      c.active_votes.map (fun v => (v.voter,
        recorded_claim (max_rewards c now median pending_payout_HBD ppv)
          (resolved_total_vote_weight c) v)) ∧
    (get_curation_rewards c now median pending_payout_HBD ppv).unclaimed_rewards +
      ((get_curation_rewards c now median pending_payout_HBD ppv).active_votes.map
        Prod.snd).sum =
      max_rewards c now median pending_payout_HBD ppv ∧
    (resolved_total_vote_weight c = 0 →
      (∀ p ∈ (get_curation_rewards c now median pending_payout_HBD ppv).active_votes,
        p.2 = 0) ∧
      (get_curation_rewards c now median pending_payout_HBD ppv).unclaimed_rewards =
        max_rewards c now median pending_payout_HBD ppv) := by
  have hfold := foldl_curation_step_eq (pending_rewards_flag c now)
    (max_rewards c now median pending_payout_HBD ppv) (resolved_total_vote_weight c)
    c.active_votes (max_rewards c now median pending_payout_HBD ppv) []
    (by simpa using hnd)
  have hval : get_curation_rewards c now median pending_payout_HBD ppv =
      ⟨pending_rewards_flag c now,
       max_rewards c now median pending_payout_HBD ppv -
         (c.active_votes.map (dec_claim (pending_rewards_flag c now)
           (max_rewards c now median pending_payout_HBD ppv)
           (resolved_total_vote_weight c))).sum,
       c.active_votes.map (fun v => (v.voter,
         recorded_claim (max_rewards c now median pending_payout_HBD ppv)
           (resolved_total_vote_weight c) v))⟩ := by
    simp only [get_curation_rewards]
    rw [hfold]
    simp
  refine ⟨by rw [hval], ?_, ?_⟩
  · rw [hval]
    have hS : (c.active_votes.map (dec_claim (pending_rewards_flag c now)
        (max_rewards c now median pending_payout_HBD ppv)
        (resolved_total_vote_weight c))).sum =
        (c.active_votes.map (recorded_claim
          (max_rewards c now median pending_payout_HBD ppv)
          (resolved_total_vote_weight c))).sum := by
      apply congrArg List.sum
      apply List.map_congr_left
      intro v _
      cases hflag : pending_rewards_flag c now with
      | true => exact dec_claim_true _ _ v
      | false =>
        rw [max_rewards_eq_zero_of_flag_false c now median pending_payout_HBD ppv hflag,
          dec_claim_zero_max, recorded_claim_zero_max]
    show (max_rewards c now median pending_payout_HBD ppv - _) + _ = _
    rw [hS]
    have hmm : ((c.active_votes.map (fun v => (v.voter,
        recorded_claim (max_rewards c now median pending_payout_HBD ppv)
          (resolved_total_vote_weight c) v))).map Prod.snd) =
        c.active_votes.map (recorded_claim
          (max_rewards c now median pending_payout_HBD ppv)
          (resolved_total_vote_weight c)) := by
      rw [List.map_map]
      rfl
    rw [hmm]
    ring
  · intro h0
    constructor
    · rw [hval]
      intro p hp
      rcases List.mem_map.mp hp with ⟨v, _, rfl⟩
      show recorded_claim _ _ v = 0
      rw [h0, recorded_claim_zero_tvw]
    · rw [hval]
      show max_rewards c now median pending_payout_HBD ppv - _ = _
      have : (c.active_votes.map (dec_claim (pending_rewards_flag c now)
          (max_rewards c now median pending_payout_HBD ppv)
          (resolved_total_vote_weight c))).sum = 0 := by
        have hz : ∀ v ∈ c.active_votes, dec_claim (pending_rewards_flag c now)
            (max_rewards c now median pending_payout_HBD ppv)
            (resolved_total_vote_weight c) v = (fun _ => (0 : ℚ)) v := by
          intro v _
          rw [h0, dec_claim_zero_tvw]
        rw [List.map_congr_left hz]
        simp
      rw [this, sub_zero]

/-- The spec's two-vote scenario: weights 300 and 700, pending payout 4
HBD, so `max_rewards = 1`. -/
def cC2 : Comment :=
  ⟨0, 0, 0, 4, 0, true, [], [⟨"a", 300, 0, none, none⟩, ⟨"b", 700, 0, none, none⟩], none⟩

/-- Witness for C2: on the two-vote record the returned `unclaimed` plus
the per-voter sum equals `max_rewards`. -/
theorem c2_witness :
    (get_curation_rewards cC2 0 none true none).unclaimed_rewards +
      ((get_curation_rewards cC2 0 none true none).active_votes.map Prod.snd).sum =
      max_rewards cC2 0 none true none :=
  (c2_curation_rewards_conservation cC2 0 none true none (by decide)).2.1

/-- A pending record (age 0, zero finalized payout) with curation rewards
disallowed. -/
def cC4 : Comment :=
  ⟨0, 0, 0, 4, 0, false, [], [⟨"a", 300, 0, none, none⟩], none⟩

/-- Counterexample for C4 as stated: on the pending record `cC4` with
`allow_curation_rewards = false` the returned `pending_rewards` flag is
`false` while `is_pending` is `true` — the flag does NOT reflect the
record's own pending state. -/
theorem c4_counterexample :
    (get_curation_rewards cC4 0 none false none).pending_rewards ≠ is_pending cC4 0 := by
  have h1 : (get_curation_rewards cC4 0 none false none).pending_rewards = false := by
    have hflag : pending_rewards_flag cC4 0 = false := by
      unfold pending_rewards_flag cC4
      simp
    simp only [get_curation_rewards]
    exact hflag
  have h2 : is_pending cC4 0 = true := by
    unfold is_pending time_elapsed
    rw [show cC4.created = 0 from rfl, show cC4.total_payout_value = 0 from rfl]
    norm_num
  rw [h1, h2]
  exact Bool.false_ne_true

/-- C4 (amended): with `allow_curation_rewards = false`,
`get_curation_rewards` computes `max_rewards = 0`, leaves
`unclaimed_rewards = 0`, records a zero claim for every voter, and always
returns `pending_rewards = false` — regardless of the record's own pending
state. -/
theorem c4_no_curation_rewards_all_zero (c : Comment) (now : ℚ) (median : Option ℚ)
    (pending_payout_HBD : Bool) (ppv : Option ℚ)
    (h : c.allow_curation_rewards = false) :
    max_rewards c now median pending_payout_HBD ppv = 0 ∧
    (get_curation_rewards c now median pending_payout_HBD ppv).unclaimed_rewards = 0 ∧
    (∀ p ∈ (get_curation_rewards c now median pending_payout_HBD ppv).active_votes,
      p.2 = 0) ∧
    (get_curation_rewards c now median pending_payout_HBD ppv).pending_rewards = false := by
  have hflag : pending_rewards_flag c now = false := by
    unfold pending_rewards_flag
    rw [h, Bool.false_and]
  have hmx : max_rewards c now median pending_payout_HBD ppv = 0 :=
    max_rewards_eq_zero_of_flag_false c now median pending_payout_HBD ppv hflag
  obtain ⟨hu, hvals⟩ := foldl_curation_step_zero_max (pending_rewards_flag c now)
    (resolved_total_vote_weight c) c.active_votes 0 [] (by simp)
  have hval : get_curation_rewards c now median pending_payout_HBD ppv =
      ⟨pending_rewards_flag c now,
       (c.active_votes.foldl (curation_step (pending_rewards_flag c now) 0
         (resolved_total_vote_weight c)) (0, [])).1,
       (c.active_votes.foldl (curation_step (pending_rewards_flag c now) 0
         (resolved_total_vote_weight c)) (0, [])).2⟩ := by
    simp only [get_curation_rewards]
    rw [hmx]
  refine ⟨hmx, ?_, ?_, ?_⟩
  · rw [hval]
    exact hu
  · rw [hval]
    exact hvals
  · rw [hval]
    exact hflag

/-- Witness for C4 (amended): on `cC4` the returned `unclaimed_rewards`
is zero. -/
theorem c4_witness :
    (get_curation_rewards cC4 0 none false none).unclaimed_rewards = 0 :=
  (c4_no_curation_rewards_all_zero cC4 0 none false none rfl).2.1

/-- C3: whenever `get_rewards` returns a result, the total payout equals
author payout plus curator payout; in the pending branch the total is the
pending payout value, the author payout is the `total_payout_HBD` of
`get_author_rewards`, and the curator payout is their difference; in the
finalized branch author and curator payouts are the record's two payout
fields and the total is their sum. -/
theorem c3_get_rewards_total_split (c : Comment) (now : ℚ) (median : Option ℚ)
    (hardfork : ℕ) (r : Rewards)
    (h : get_rewards c now median hardfork = .ok r) :
    r.total_payout = r.author_payout + r.curator_payout ∧
    (is_pending c now = true →
      r.total_payout = c.pending_payout_value ∧
      (get_author_rewards c now median hardfork).total_payout_HBD =
        some r.author_payout ∧
      r.curator_payout = r.total_payout - r.author_payout) ∧
    (is_pending c now = false →
      r.author_payout = c.total_payout_value ∧
      r.curator_payout = c.curator_payout_value ∧
      r.total_payout = r.author_payout + r.curator_payout) := by
  cases hp : is_pending c now with
  | true =>
    simp only [get_rewards, hp, if_true] at h
    cases hm : (get_author_rewards c now median hardfork).total_payout_HBD with
    | none =>
      rw [hm] at h
      exact absurd h (by simp)
    | some a =>
      rw [hm] at h
      simp only [Except.ok.injEq] at h
      subst h
      exact ⟨by show c.pending_payout_value = a + (c.pending_payout_value - a); ring,
        fun _ => ⟨rfl, rfl, rfl⟩, fun hf => absurd hf (by simp)⟩
  | false =>
    simp only [get_rewards, hp, Bool.false_eq_true, if_false] at h
    simp only [Except.ok.injEq] at h
    subst h
    exact ⟨rfl, fun ht => absurd ht (by simp), fun _ => ⟨rfl, rfl, rfl⟩⟩

/-- A finalized record from the spec's scenario: total payout 10 HBD,
curator payout 3 HBD. -/
def cC3 : Comment := ⟨0, 10, 3, 0, 0, true, [], [], none⟩

/-- Witness for C3 on `cC3`: `get_rewards` returns
`⟨13, 10, 3⟩` and `13 = 10 + 3`. -/
theorem c3_witness :
    get_rewards cC3 0 none 23 = .ok ⟨13, 10, 3⟩ ∧ (13 : ℚ) = 10 + 3 := by
  have hnp : is_pending cC3 0 = false := by
    unfold is_pending time_elapsed cC3
    norm_num
  have hok : get_rewards cC3 0 none 23 = .ok ⟨13, 10, 3⟩ := by
    simp only [get_rewards, hnp, Bool.false_eq_true, if_false, Except.ok.injEq,
      Rewards.mk.injEq]
    refine ⟨?_, rfl, rfl⟩
    show cC3.total_payout_value + cC3.curator_payout_value = 13
    norm_num [cC3]
  exact ⟨hok, by simpa using (c3_get_rewards_total_split cC3 0 none 23 ⟨13, 10, 3⟩ hok).1⟩

/-- C9: for a pending record with no median price history, the
author-rewards partial result carries only the `pending_rewards` and
`total_payout` keys (in particular no `total_payout_HBD`), so the pending
branch of `get_rewards` fails with a `KeyError` instead of returning a
partial result. -/
theorem c9_pending_no_median_keyerror (c : Comment) (now : ℚ) (hardfork : ℕ)
    (hp : is_pending c now = true) :
    get_rewards c now none hardfork = .error .keyError ∧
    (get_author_rewards c now none hardfork).pending_rewards = true ∧
    (get_author_rewards c now none hardfork).total_payout_HBD = none ∧
    (get_author_rewards c now none hardfork).payout_HP = none ∧
    (get_author_rewards c now none hardfork).payout_HBD = none ∧
    (get_author_rewards c now none hardfork).total_payout ≠ none := by
  have har : ∀ f : AuthorRewards → Option ℚ,
      (f = AuthorRewards.total_payout_HBD ∨ f = AuthorRewards.payout_HP ∨
        f = AuthorRewards.payout_HBD) →
      f (get_author_rewards c now none hardfork) = none := by
    intro f hf
    simp only [get_author_rewards, hp]
    rcases hf with rfl | rfl | rfl <;> simp
  have htp : (get_author_rewards c now none hardfork).total_payout_HBD = none :=
    har AuthorRewards.total_payout_HBD (Or.inl rfl)
  refine ⟨?_, ?_, htp, har AuthorRewards.payout_HP (Or.inr (Or.inl rfl)),
    har AuthorRewards.payout_HBD (Or.inr (Or.inr rfl)), ?_⟩
  · simp only [get_rewards, hp, if_true, htp]
  · simp only [get_author_rewards, hp]
    simp
  · simp only [get_author_rewards, hp]
    simp

/-- A pending record with a pending payout of 4 HBD. -/
def cC9 : Comment := ⟨0, 0, 0, 4, 0, true, [], [], none⟩

/-- Witness for C9: on the pending record `cC9` with no median history,
`get_rewards` raises `KeyError`. -/
theorem c9_witness : get_rewards cC9 0 none 23 = .error .keyError :=
  (c9_pending_no_median_keyerror cC9 0 23 (by unfold is_pending time_elapsed cC9; norm_num)).1

/-- A record with a non-zero estimated reward (pending payout 4 HBD). -/
def cC6 : Comment := ⟨0, 0, 0, 4, 0, true, [], [], none⟩

/-- C6 (amended): at a degenerate `k = vote_value / (vote_value + reward)`
equal to 0, `estimate_curation_HBD` fails with the raw float
division-by-zero error (Python `ZeroDivisionError`), not a dedicated
`InvalidInput` error. -/
theorem c6_zero_k_fails_with_division_by_zero (sqrtFn : ℚ → ℚ) (W6 W20 W21 : ℚ)
    (hardfork : ℕ) (c : Comment) (now : ℚ) (vote_value : ℚ) (est : Option ℚ)
    (hden : vote_value + reward c ≠ 0)
    (hk : vote_value / (vote_value + reward c) = 0) :
    estimate_curation_HBD sqrtFn W6 W20 W21 hardfork c now vote_value est =
      .error .divisionByZero := by
  simp only [estimate_curation_HBD]
  rw [if_neg hden, hk]
  norm_num

/-- Counterexample for C6 as stated: with `vote_value = 0` on `cC6`
(`k = 0/(0+4) = 0`) the function fails, but with the division-by-zero
error, which is not the `InvalidInput` error the claim requires. -/
theorem c6_counterexample :
    estimate_curation_HBD (fun x => x) 1800 900 900 21 cC6 0 0 none =
      .error .divisionByZero ∧ Err.divisionByZero ≠ Err.invalidInput := by
  constructor
  · simp only [estimate_curation_HBD]
    rw [if_neg (by norm_num [reward, cC6]), zero_div]
    norm_num
  · decide

/-- Witness for C6 (amended), applying the theorem at `vote_value = 0` on
`cC6` with the identity in place of `math.sqrt`. -/
theorem c6_witness :
    estimate_curation_HBD (fun x => x) 900 900 900 20 cC6 0 0 none =
      .error .divisionByZero :=
  c6_zero_k_fails_with_division_by_zero (fun x => x) 900 900 900 20 cC6 0 0 none
    (by norm_num [reward, cC6]) (zero_div _)

/-- A vote entry with its two derived view fields erased. -/
def stripDerived (v : Vote) : Vote := ⟨v.voter, v.weight, v.percent, none, none⟩

/-- Replacing the last matching vote leaves the list unchanged up to the
derived fields, provided the replacement agrees with the replaced entry on
everything else. -/
theorem map_strip_replaceLastMatch (name : String) (v' : Vote) :
    ∀ votes : List Vote,
      (∀ u, (votes.filter (fun x => x.voter = name)).getLast? = some u →
        stripDerived v' = stripDerived u) →
      (replaceLastMatch votes name v').map stripDerived = votes.map stripDerived := by
  intro votes
  induction votes with
  | nil => intro _; rfl
  | cons w ws ih =>
    intro hpre
    unfold replaceLastMatch
    by_cases hany : ws.any (fun u => u.voter = name) = true
    · rw [if_pos hany]
      simp only [List.map_cons]
      congr 1
      apply ih
      intro u hu
      apply hpre
      have hne : ws.filter (fun x => x.voter = name) ≠ [] := by
        rcases List.any_eq_true.mp hany with ⟨x, hx, hpx⟩
        intro hnil
        exact absurd hpx (by simpa using List.filter_eq_nil_iff.mp hnil x hx)
      rw [List.filter_cons]
      by_cases hw : w.voter = name
      · rw [if_pos (by simpa using hw)]
        cases hf : ws.filter (fun x => x.voter = name) with
        | nil => exact absurd hf hne
        | cons y ys =>
          rw [List.getLast?_cons_cons]
          rw [hf] at hu
          exact hu
      · rw [if_neg (by simpa using hw)]
        exact hu
    · rw [if_neg hany]
      have hws : ws.filter (fun x => x.voter = name) = [] := by
        rw [List.filter_eq_nil_iff]
        intro a ha
        have := (List.any_eq_true.not.mp hany)
        push_neg at this
        simpa using this a ha
      by_cases hw : w.voter = name
      · rw [if_pos hw]
        have hlast : ((w :: ws).filter (fun x => x.voter = name)).getLast? = some w := by
          rw [List.filter_cons, if_pos (by simpa using hw), hws]
          rfl
        have hst := hpre w hlast
        simp only [List.map_cons, hst]
      · rw [if_neg hw]
        simp only [List.map_cons]
        congr 1
        apply ih
        intro u hu
        apply hpre
        rw [List.filter_cons, if_neg (by simpa using hw)]
        exact hu

/-- C7 (amended): `get_vote_with_curation` is a frame violation only in
the matched vote entry's derived fields — on success the returned record
agrees with the input record on every scalar field, the beneficiary list
and the vote list up to the `curation_reward`/`ROI` annotations, and is
the unchanged input whenever `raw_data` is set or the record is not
pending.  (The other engine operations are pure functions of the record
in this embedding and return fresh structures by construction.) -/
theorem c7_reward_ops_frame (c : Comment) (now : ℚ) (median : Option ℚ)
    (voter : String) (raw_data : Bool) (ppv : Option ℚ) (vv : ℚ)
    (res : Option Vote) (c' : Comment)
    (h : get_vote_with_curation c now median voter raw_data ppv vv = .ok (res, c')) :
    c'.created = c.created ∧
    c'.total_payout_value = c.total_payout_value ∧
    c'.curator_payout_value = c.curator_payout_value ∧
    c'.pending_payout_value = c.pending_payout_value ∧
    c'.percent_hive_dollars = c.percent_hive_dollars ∧
    c'.allow_curation_rewards = c.allow_curation_rewards ∧
    c'.beneficiaries = c.beneficiaries ∧
    c'.total_vote_weight = c.total_vote_weight ∧
    c'.active_votes.map stripDerived = c.active_votes.map stripDerived ∧
    ((raw_data = true ∨ is_pending c now = false) → c' = c) := by
  unfold get_vote_with_curation at h
  cases hlast : (c.active_votes.filter (fun v => v.voter = voter)).getLast? with
  | none =>
    rw [hlast] at h
    simp only [Except.ok.injEq, Prod.mk.injEq] at h
    obtain ⟨-, hc⟩ := h
    subst hc
    exact ⟨rfl, rfl, rfl, rfl, rfl, rfl, rfl, rfl, rfl, fun _ => rfl⟩
  | some v =>
    rw [hlast] at h
    dsimp only at h
    by_cases hcond : raw_data = true ∨ ¬ is_pending c now = true
    · rw [if_pos hcond] at h
      simp only [Except.ok.injEq, Prod.mk.injEq] at h
      obtain ⟨-, hc⟩ := h
      subst hc
      exact ⟨rfl, rfl, rfl, rfl, rfl, rfl, rfl, rfl, rfl, fun _ => rfl⟩
    · rw [if_neg hcond] at h
      cases hget : dictGet (get_curation_rewards c now median true ppv).active_votes voter with
      | none =>
        rw [hget] at h
        exact absurd h (by simp)
      | some claim =>
        rw [hget] at h
        dsimp only at h
        by_cases hvv : vv = 0
        · rw [if_pos hvv] at h
          exact absurd h (by simp)
        · rw [if_neg hvv] at h
          simp only [Except.ok.injEq, Prod.mk.injEq] at h
          obtain ⟨hres, hc⟩ := h
          subst hc
          refine ⟨rfl, rfl, rfl, rfl, rfl, rfl, rfl, rfl, ?_, ?_⟩
          · show (replaceLastMatch c.active_votes voter _).map stripDerived = _
            apply map_strip_replaceLastMatch
            intro u hu
            rw [hlast] at hu
            injection hu with hu
            subst hu
            rfl
          · intro hc'
            refine absurd ?_ hcond
            rcases hc' with h1 | h1
            · exact Or.inl h1
            · exact Or.inr (by simp [h1])

/-- The two-vote pending record on which `get_vote_with_curation`
annotates voter "a" in place. -/
def cC7 : Comment :=
  ⟨0, 0, 0, 4, 0, true, [], [⟨"a", 300, 0, none, none⟩, ⟨"b", 700, 0, none, none⟩], none⟩

/-- The annotated vote of "a": claim `3/10`, ROI `30`. -/
def vC7 : Vote := ⟨"a", 300, 0, some (3/10), some 30⟩

/-- The record `cC7` after the in-place annotation of voter "a". -/
def cC7x : Comment :=
  ⟨0, 0, 0, 4, 0, true, [], [vC7, ⟨"b", 700, 0, none, none⟩], none⟩

/-- The record `cC7` is pending at `now = 0`. -/
theorem hpendC7 : is_pending cC7 0 = true := by
  unfold is_pending time_elapsed cC7
  norm_num

/-- On `cC7`, `max_rewards` with `pending_payout_HBD` is a quarter of the
pending payout: `4 * 1/4 = 1`. -/
theorem hmxC7 : max_rewards cC7 0 none true none = 1 := by
  unfold max_rewards
  rw [if_neg (by push_neg; exact ⟨rfl, hpendC7⟩)]
  norm_num [resolved_pending_payout, cC7]

/-- On `cC7`, the total vote weight is recomputed from the votes. -/
theorem htvwC7 : resolved_total_vote_weight cC7 = 1000 := by decide

/-- On `cC7`, curation rewards are in the pending state. -/
theorem hflagC7 : pending_rewards_flag cC7 0 = true := by
  unfold pending_rewards_flag
  rw [hpendC7]
  rfl

/-- The per-voter curation dictionary of `cC7`: `a ↦ 3/10`, `b ↦ 7/10`. -/
theorem hcrC7 : (get_curation_rewards cC7 0 none true none).active_votes =
    [("a", (3 : ℚ)/10), ("b", (7 : ℚ)/10)] := by
  have hfold := foldl_curation_step_eq true 1 1000 cC7.active_votes 1 [] (by decide)
  simp only [get_curation_rewards]
  rw [hflagC7, hmxC7, htvwC7]
  show (cC7.active_votes.foldl (curation_step true 1 1000) (1, [])).2 = _
  rw [hfold]
  show [] ++ cC7.active_votes.map _ = _
  rw [List.nil_append]
  show [(("a" : String), recorded_claim 1 1000 ⟨"a", 300, 0, none, none⟩),
    (("b" : String), recorded_claim 1 1000 ⟨"b", 700, 0, none, none⟩)] = _
  norm_num [recorded_claim, claim_of]

/-- Full evaluation of `get_vote_with_curation` on `cC7` for voter "a":
the returned record is the annotated `cC7x`, not the input `cC7`. -/
theorem gvwc_cC7_eval :
    get_vote_with_curation cC7 0 none "a" false none 1 = .ok (some vC7, cC7x) := by
  unfold get_vote_with_curation
  rw [show (cC7.active_votes.filter (fun v => v.voter = "a")).getLast? =
    some ⟨"a", 300, 0, none, none⟩ from rfl]
  dsimp only
  rw [if_neg (by rw [hpendC7]; simp)]
  rw [show dictGet (get_curation_rewards cC7 0 none true none).active_votes "a" =
    some ((3 : ℚ)/10) from by rw [hcrC7]; rfl]
  dsimp only
  rw [if_neg (by norm_num : ¬(1 : ℚ) = 0)]
  have hrep : replaceLastMatch cC7.active_votes "a"
      ⟨"a", 300, 0, some ((3 : ℚ)/10), some ((3 : ℚ)/10 / 1 * 100)⟩ =
      [⟨"a", 300, 0, some ((3 : ℚ)/10), some ((3 : ℚ)/10 / 1 * 100)⟩,
       ⟨"b", 700, 0, none, none⟩] := by
    show replaceLastMatch [⟨"a", 300, 0, none, none⟩, ⟨"b", 700, 0, none, none⟩] "a" _ = _
    unfold replaceLastMatch
    rw [if_neg (by decide), if_pos rfl]
  simp only [Except.ok.injEq, Prod.mk.injEq, Comment.mk.injEq, Option.some.injEq]
  constructor
  · show Vote.mk _ _ _ _ _ = vC7
    unfold vC7
    simp only [Vote.mk.injEq]
    norm_num
  · rw [hrep]
    unfold cC7x vC7 cC7
    simp only [Comment.mk.injEq, List.cons.injEq, Vote.mk.injEq]
    norm_num

/-- Counterexample for C7 as stated: on the pending record `cC7`,
`get_vote_with_curation` for voter "a" leaves the record changed — the
matched vote entry acquires `curation_reward` and `ROI` in place, so the
record after the call (`cC7x`) differs from the record before it. -/
theorem c7_counterexample :
    get_vote_with_curation cC7 0 none "a" false none 1 = .ok (some vC7, cC7x) ∧
    cC7x ≠ cC7 := by
  refine ⟨gvwc_cC7_eval, ?_⟩
  unfold cC7x cC7 vC7
  simp

/-- Witness for C7 (amended), applying the frame theorem to the concrete
call on `cC7`: the mutated record still agrees with the input up to the
derived vote fields. -/
theorem c7_witness :
    cC7x.active_votes.map stripDerived = cC7.active_votes.map stripDerived :=
  (c7_reward_ops_frame cC7 0 none "a" false none 1 (some vC7) cC7x
    gvwc_cC7_eval).2.2.2.2.2.2.2.2.1

end BHive

